import Mathlib

namespace JavaGoBench

/-!
Verification of the Java/Go concurrency benchmark harness.

The repository contains four variants of the same pipeline (Go and Java,
over CIFAR-10 and Tiny ImageNet): a dataset of fixed-length float vectors
is partitioned into contiguous batches, every vector in every batch is
doubled in place by concurrent workers, and wall-clock / memory / CPU
metrics are recorded around each run.

This file shallowly embeds the data-model and the operations of that
pipeline and proves or refutes the frozen specification claims about it.
Vector elements (Go `float32` / Java `float`) are modelled as rationals:
the only arithmetic the pipeline performs on them is multiplication by 2
and division of a byte value by 255, both of which are exact in binary
floating point for the value ranges involved, so `ℚ` is a faithful carrier
for the claims under scrutiny (which are all about structure and exact
values, not rounding).
-/

/-- A Vector: one image, a fixed-length sequence of float samples
(`[]float32` in Go, `float[]` in Java). -/
abbrev Vec := List ℚ

/-- Go `SimulateImageProcessing` (src/go/cifar-10/main.go lines 60-65,
src/go/tinyimagenet/main.go lines 90-96) and the inner loop of Java
`processBatch` (cifar ImageProcessor.java lines 163-169): every element of
the vector is replaced by `element * 2`.  The Go code mutates the slice in
place and returns it; the functional embedding returns the new value. -/
def SimulateImageProcessing (image : Vec) : Vec :=
  image.map (fun x => x * 2)

/-- `ImageBatch` (Go struct, src/go/cifar-10/main.go lines 23-27): a batch
of images plus a parallel list of labels.  The label type is a parameter
because the CIFAR-10 variants use `int` labels and the Tiny ImageNet
variants use `string` labels. -/
structure ImageBatch (α : Type) where
  Images : List Vec
  Labels : List α

/-- The Batcher: the batch-construction loop of Go `RunProcessingTask`
(src/unnamed/part_001 lines 80-91, src/go/cifar-10/main.go lines 77-88):
`numBatches := len(images) / batchSize` and batch `i` is the slice
`images[i*batchSize : (i+1)*batchSize]` (with the parallel label slice).
A Go slice `xs[a : a+n]` with `a+n ≤ len xs` is `(xs.drop a).take n`. -/
def makeBatches {α : Type} (bs : ℕ) (images : List Vec) (labels : List α) :
    List (ImageBatch α) :=
  (List.range (images.length / bs)).map fun i =>
    { Images := (images.drop (i * bs)).take bs
      Labels := (labels.drop (i * bs)).take bs }

/-- In-place effect of processing one batch on the shared dataset state.
The Go batches alias the dataset (`images[start:end]` shares the backing
array), so `ProcessBatch` (src/go/cifar-10/main.go lines 67-73) doubling
every vector of batch `i` doubles the dataset vectors at global indices
`[start, start+len)`.  `updateRange start len i st` doubles the vectors of
`st` whose global index (position plus the offset `i`) lies in
`[start, start+len)`. -/
def updateRange (start len : ℕ) : ℕ → List Vec → List Vec
  | _, [] => []
  | i, v :: rest =>
      (if start ≤ i ∧ i < start + len then SimulateImageProcessing v else v) ::
        updateRange start len (i + 1) rest

/-- Effect of `ProcessBatch` on the whole dataset: double every vector with
global index in `[start, start + len)`. -/
def processBatchState (start len : ℕ) (st : List Vec) : List Vec :=
  updateRange start len 0 st

/-- Process the batches whose indices are listed in `l` (batch `b` covers
dataset indices `[b*bs, b*bs + bs)`), in the order given by `l`. -/
def applyBatches (bs : ℕ) (st : List Vec) (l : List ℕ) : List Vec :=
  l.foldl (fun s b => processBatchState (b * bs) bs s) st

/-- Dataset effect of one call of Go `RunProcessingTask`
(src/unnamed/part_001 lines 79-107): partition into
`numBatches = len images / bs` batches and process every batch.
The goroutines may interleave, but `applyBatches_getElem` below shows the
result only depends on how many processed batches cover each index, so the
sequential fold in batch order is the common denotation of every
schedule (see `C1_scheduler_exactly_once` for the permutation statement). -/
def RunProcessingTask (bs : ℕ) (images : List Vec) : List Vec :=
  applyBatches bs images (List.range (images.length / bs))

/-- The indices of batches covering dataset index `j`. -/
def covers (bs j : ℕ) (b : ℕ) : Bool :=
  decide (b * bs ≤ j ∧ j < b * bs + bs)

/-- Sum of all elements of all vectors of a dataset (the per-run checksum
of the spec). -/
def totalSum (st : List Vec) : ℚ :=
  (st.map fun v => v.sum).sum

/-!
## Strategy A: bounded-queue producer/consumer pool

Small-step model of the Java scheduler
(`produceBatches` + `processBatches`, cifar ImageProcessor.java lines
123-161; the tinyimagenet variant lines 89-136 is line-for-line the same
protocol): one producer enqueues every batch in order into a
`LinkedBlockingQueue` of capacity `Q` (`put` blocks when full) and sets the
`AtomicBoolean isDoneProducing` after its loop; `W` pooled consumers loop
`while (!isDoneProducing.get() || !queue.isEmpty())`, `poll` a batch and
process it, and exit once the flag is set and the queue is observed empty.
Workers are interchangeable, so the pool is modelled by counts (`idle`,
`exited`) plus the list of batch indices currently held by busy workers.
`done` records the processed batch indices in reverse completion order.
-/

/-- Global state of the bounded-queue scheduler. -/
structure SchedState where
  /-- batch indices the producer has not yet enqueued, in dataset order -/
  pending : List ℕ
  /-- FIFO queue contents, head = next to be dequeued -/
  queue : List ℕ
  /-- the `isDoneProducing` atomic flag -/
  flag : Bool
  /-- number of workers currently between loop iterations, holding nothing -/
  idle : ℕ
  /-- batch indices currently held by busy workers -/
  busy : List ℕ
  /-- number of workers whose loop condition failed and exited -/
  exited : ℕ
  /-- processed batch indices, most recent first -/
  done : List ℕ
  /-- the shared dataset vectors -/
  data : List Vec

/-- One atomic step of the Strategy A scheduler with queue capacity `Q`
over batches of `bs` vectors. -/
inductive Step (Q bs : ℕ) : SchedState → SchedState → Prop
  /-- `queue.put(batch)`: the producer enqueues the next batch; it blocks
  (no step) while the queue holds `Q` elements. -/
  | enqueue (s : SchedState) (b : ℕ) (rest : List ℕ)
      (hp : s.pending = b :: rest) (hq : s.queue.length < Q) :
      Step Q bs s { s with pending := rest, queue := s.queue ++ [b] }
  /-- `isDoneProducing.set(true)` in the producer's `finally`, reached
  after the enqueue loop is exhausted. -/
  | setFlag (s : SchedState) (hp : s.pending = []) (hf : s.flag = false) :
      Step Q bs s { s with flag := true }
  /-- `queue.poll(...)` returns a batch: an idle worker removes the queue
  head and starts processing it. -/
  | dequeue (s : SchedState) (b : ℕ) (qrest : List ℕ)
      (hq : s.queue = b :: qrest) (hi : 0 < s.idle) :
      Step Q bs s
        { s with queue := qrest, idle := s.idle - 1, busy := b :: s.busy }
  /-- `processBatch(batch)` completes: a busy worker doubles every vector
  of its batch in place and goes back to the loop head. -/
  | finish (s : SchedState) (b : ℕ) (brest : List ℕ)
      (hb : s.busy.Perm (b :: brest)) :
      Step Q bs s
        { s with busy := brest, idle := s.idle + 1, done := b :: s.done,
                 data := processBatchState (b * bs) bs s.data }
  /-- the loop condition `!isDoneProducing.get() || !queue.isEmpty()`
  fails: an idle worker observes the flag set and the queue empty, and
  exits. -/
  | exit (s : SchedState) (hi : 0 < s.idle) (hf : s.flag = true)
      (hq : s.queue = []) :
      Step Q bs s { s with idle := s.idle - 1, exited := s.exited + 1 }

/-- Multi-step reachability for the Strategy A scheduler. -/
def Reaches (Q bs : ℕ) : SchedState → SchedState → Prop :=
  Relation.ReflTransGen (Step Q bs)

/-- State at the start of `processBatches`: all batches pending, queue
empty, flag clear, `W` idle workers, original dataset. -/
def initState (bs W : ℕ) (images : List Vec) : SchedState :=
  { pending := List.range (images.length / bs)
    queue := []
    flag := false
    idle := W
    busy := []
    exited := 0
    done := []
    data := images }

/-- Inductive invariant of the Strategy A scheduler: (1) the batch indices
split between `done`, busy workers, the queue and the producer account for
every batch exactly as often as `range` does (counted under every
predicate, i.e. as a multiset); (2) the flag is only set once everything
is enqueued; (3) workers are conserved; (4) workers only all exit with the
flag set and the queue drained; (5) the dataset equals the initial dataset
with exactly the `done` batches applied, in completion order. -/
def Inv (bs W : ℕ) (images : List Vec) (s : SchedState) : Prop :=
  (∀ p : ℕ → Bool,
      s.done.countP p + s.busy.countP p + s.queue.countP p +
          s.pending.countP p =
        (List.range (images.length / bs)).countP p)
  ∧ (s.flag = true → s.pending = [])
  ∧ s.idle + s.busy.length + s.exited = W
  ∧ (s.exited = W → s.queue = [] ∧ s.flag = true)
  ∧ s.data = applyBatches bs images s.done.reverse

/-!
## Metrics: timing and memory
-/

/-- Timing structure of one run.  `t0 t1 t2 t3` are the four successive
clock readings of the instrumented run, in program order:

* Go `RunProcessingTask` (src/unnamed/part_001 lines 94-106,
  src/go/tinyimagenet/main.go lines 120-132): `startOverhead := time.Now()`
  (`t0`), `startExecution := time.Now()` (`t1`), the concurrent region,
  `executionTime := time.Since(startExecution)` (`t2`),
  `concurrencyOverhead := time.Since(startOverhead)` (`t3`);
* Java cifar `main` lines 53-66: `startOverheadTime` (`t0`), `startTime`
  (`t1`), `processBatches`, `elapsedTime = nanoTime - startTime` (`t2`),
  `endOverheadTime` (`t3`); Java tinyimagenet `main` lines 47-63 likewise.

The pair returned is `(executionTime, concurrencyOverhead)`. -/
def RunProcessingTaskTimings (t0 t1 t2 t3 : ℤ) : ℤ × ℤ :=
  (t2 - t1, t3 - t0)

/-- Go `memoryUsage := memoryAfter - memoryBefore`
(src/unnamed/part_001 line 165, src/go/tinyimagenet/main.go line 196).
`runtime.MemStats.Alloc` is a `uint64`, so the subtraction is modular:
the result is `(after - before) mod 2^64`. -/
def goMemoryUsage (memoryBefore memoryAfter : ℕ) : ℕ :=
  (memoryAfter % 2 ^ 64 + 2 ^ 64 - memoryBefore % 2 ^ 64) % 2 ^ 64

/-- Java `long memoryUsage = memoryAfter - memoryBefore`
(cifar ImageProcessor.java line 64, tinyimagenet line 58): two's-complement
64-bit signed subtraction. -/
def javaMemoryUsage (memoryBefore memoryAfter : ℤ) : ℤ :=
  (memoryAfter - memoryBefore + 2 ^ 63) % 2 ^ 64 - 2 ^ 63

/-!
## Termination of the consumer pool (Java `processBatches` tail)
-/

/-- The three possible outcomes of
`consumers.awaitTermination(10, TimeUnit.MINUTES)` after `shutdown()`:
the pool drained within the bounded wait (returns `true`), the 10-minute
wait elapsed first (returns `false`), or the waiting thread was
interrupted (`InterruptedException`). -/
inductive AwaitOutcome
  | terminated
  | timedOut
  | interrupted
  deriving DecidableEq

/-- Failures a scheduler run could surface to its caller. -/
inductive SchedulerFailure
  | terminationTimeout
  deriving DecidableEq

/-- Java semantics of `awaitTermination`: `Except` error is
`InterruptedException`, the `Bool` is the drained/timed-out result. -/
def awaitTermination : AwaitOutcome → Except Unit Bool
  | .terminated => .ok true
  | .timedOut => .ok false
  | .interrupted => .error ()

/-- What `processBatches` reports to its caller as a function of the
await outcome (cifar ImageProcessor.java lines 155-161; tinyimagenet
lines 130-136 is identical except the catch block logs a message):
the statement `consumers.awaitTermination(10, TimeUnit.MINUTES);` discards
the returned boolean, and the `catch (InterruptedException e)` block only
prints a stack trace, after which the method returns normally.  So no
outcome produces a failure value. -/
def processBatchesResult (o : AwaitOutcome) : Option SchedulerFailure :=
  match awaitTermination o with
  | .ok _ => none
  | .error _ => none

/-!
## The Java Tiny ImageNet transform (`processImage`)
-/

/-- Per-channel step of Java tinyimagenet `processImage`
(ImageProcessor.java lines 147-149): `Math.min(channel * 2, 255)`. -/
def processChannel (c : ℕ) : ℕ :=
  min (c * 2) 255

/-- One pixel of Java tinyimagenet `processImage` (lines 142-152):
unpack `r = (rgb >> 16) & 0xFF`, `g = (rgb >> 8) & 0xFF`, `b = rgb & 0xFF`,
clamp-double each channel, repack `(r << 16) | (g << 8) | b` (the channels
are ≤ 255 so the shifted fields are disjoint and `|` is `+`). -/
def processRGB (rgb : ℕ) : ℕ :=
  processChannel (rgb / 65536 % 256) * 65536 +
    processChannel (rgb / 256 % 256) * 256 +
    processChannel (rgb % 256)

/-- Java tinyimagenet `processImage` (lines 139-155): every pixel of the
image grid is rewritten through `processRGB`. -/
def processImage (img : List (List ℕ)) : List (List ℕ) :=
  img.map fun row => row.map processRGB

/-!
## Dataset loaders
-/

/-- CIFAR-10 record geometry shared by the Go and Java loaders:
1 label byte followed by `32 * 32 * 3` image bytes, 10000 records per
file, 5 files. -/
def imageSize : ℕ := 32 * 32 * 3

/-- Number of records each `data_batch_N.bin` file declares. -/
def numImagesPerBatch : ℕ := 10000

/-- Path of the `i`-th CIFAR-10 batch file (the Go `filepath.Join` /
Java string concatenation is abstracted as concatenation). -/
def dataBatchPath (dataDir : String) (i : ℕ) : String :=
  dataDir ++ "data_batch_" ++ Nat.repr i ++ ".bin"

/-- Outcome of running a Go function: a normal return, an `error` return,
or a runtime panic (out-of-range index or slice bound). -/
inductive GoResult (α : Type)
  | ok (val : α)
  | fileError
  | panic
  deriving DecidableEq

/-- The inner record loop of Go `LoadCIFAR10` (src/unnamed/part_001 lines
47-57): for `j` from the current index, read `label := data[j*(imageSize+1)]`
(a panic if the index is out of range) then the slice
`data[j*(imageSize+1)+1 : (j+1)*(imageSize+1)]` (a panic if the upper bound
exceeds `len(data)`), convert the bytes to floats divided by 255, and
recurse.  `fuel` counts the remaining records
(`numImagesPerBatch - j` at the top level). -/
def parseImages (data : List ℕ) : ℕ → ℕ → GoResult (List Vec × List ℕ)
  | _, 0 => .ok ([], [])
  | j, fuel + 1 =>
      if j * (imageSize + 1) < data.length then
        if (j + 1) * (imageSize + 1) ≤ data.length then
          let label := data.getD (j * (imageSize + 1)) 0
          let image := ((data.drop (j * (imageSize + 1) + 1)).take
              imageSize).map fun byteVal => (byteVal : ℚ) / 255
          match parseImages data (j + 1) fuel with
          | .ok (imgs, lbls) => .ok (image :: imgs, label :: lbls)
          | .fileError => .fileError
          | .panic => .panic
        else .panic
      else .panic

/-- Go `LoadCIFAR10` (src/unnamed/part_001 lines 33-60,
src/go/cifar-10/main.go lines 30-57) over the batch files listed in `l`:
`ioutil.ReadFile` failure (modelled by the file system map returning
`none`) makes the function return an error; otherwise the file's bytes are
parsed record by record. -/
def loadBatchFiles (fs : String → Option (List ℕ)) (dataDir : String) :
    List ℕ → GoResult (List Vec × List ℕ)
  | [] => .ok ([], [])
  | i :: rest =>
      match fs (dataBatchPath dataDir i) with
      | none => .fileError
      | some data =>
          match parseImages data 0 numImagesPerBatch with
          | .ok (imgs, lbls) =>
              match loadBatchFiles fs dataDir rest with
              | .ok (moreImgs, moreLbls) =>
                  .ok (imgs ++ moreImgs, lbls ++ moreLbls)
              | .fileError => .fileError
              | .panic => .panic
          | .fileError => .fileError
          | .panic => .panic

/-- Go `LoadCIFAR10`: loads the five batch files in order. -/
def LoadCIFAR10 (fs : String → Option (List ℕ)) (dataDir : String) :
    GoResult (List Vec × List ℕ) :=
  loadBatchFiles fs dataDir [1, 2, 3, 4, 5]

/-- Expected byte size of one batch file in the Java loader
(cifar ImageProcessor.java line 100). -/
def javaExpectedSize : ℕ := numImagesPerBatch * (1 + imageSize)

/-- The record loop of Java `loadCifar10Dataset` (lines 106-118) on a file
whose length was already checked: record `j` skips its label byte and
reads `imageSize` unsigned bytes divided by `255.0f`. -/
def javaParseBatch (data : List ℕ) : List Vec :=
  (List.range numImagesPerBatch).map fun j =>
    ((data.drop (j * (imageSize + 1) + 1)).take imageSize).map
      fun byteVal => (byteVal : ℚ) / 255

/-- Java `loadCifar10Dataset` (cifar ImageProcessor.java lines 93-121)
over the files listed in `l`.  For each file: `file.length()` (0 when the
file is missing) is compared against the expected size and an
`IOException` is thrown when it is smaller (lines 100-104), so a missing,
truncated or undersized file yields an error return; otherwise each parsed
image is appended to `allBatches` wrapped as its own one-image batch
(`allBatches.add(new float[][]{image})`, line 116). -/
def loadJavaFiles (fs : String → Option (List ℕ)) (dataDir : String) :
    List ℕ → Except Unit (List (List Vec))
  | [] => .ok []
  | i :: rest =>
      match fs (dataBatchPath dataDir i) with
      | none => .error ()
      | some data =>
          if data.length < javaExpectedSize then .error ()
          else
            match loadJavaFiles fs dataDir rest with
            | .ok more => .ok ((javaParseBatch data).map (fun img => [img]) ++ more)
            | .error e => .error e

/-- Java `loadCifar10Dataset`: the five batch files in order. -/
def loadCifar10Dataset (fs : String → Option (List ℕ)) (dataDir : String) :
    Except Unit (List (List Vec)) :=
  loadJavaFiles fs dataDir [1, 2, 3, 4, 5]

/-!
## Concrete artefacts used by witnesses and counterexamples
-/

/-- An empty data directory name, standing in for the hard-coded
directory of the sources. -/
def dirEmpty : String := ""

/-- A file system with no files: every `ReadFile` fails. -/
def fsNone : String → Option (List ℕ) := fun _ => none

/-- A file system whose first batch file exists but holds only 5 bytes:
present yet far smaller than its declared 10000 records. -/
def fsTrunc : String → Option (List ℕ) := fun s =>
  if s = dataBatchPath dirEmpty 1 then some [0, 0, 0, 0, 0] else none

/-- A file system where every path resolves to a zero-filled file of
exactly the expected batch-file size. -/
def fsFull : String → Option (List ℕ) := fun _ =>
  some (List.replicate javaExpectedSize 0)

/-- The Strategy A state after the complete 5-step execution
enqueue, setFlag, dequeue, finish, exit of the one-batch instance
`Q = 1`, `W = 1`, `bs = 1`, dataset `[[1]]`. -/
def sFinalC1 : SchedState :=
  { pending := []
    queue := []
    flag := true
    idle := 0
    busy := []
    exited := 1
    done := [0]
    data := processBatchState (0 * 1) 1 [[(1 : ℚ)]] }

/-- The Strategy A state right after the producer of the same one-batch
instance has enqueued its batch and set the flag. -/
def sFlagC8 : SchedState :=
  { pending := []
    queue := [0]
    flag := true
    idle := 1
    busy := []
    exited := 0
    done := []
    data := [[(1 : ℚ)]] }

/-!
## Lemmas and claim theorems
-/

@[simp]
theorem updateRange_length (start len : ℕ) (i : ℕ) (st : List Vec) :
    (updateRange start len i st).length = st.length := by
  induction st generalizing i with
  | nil => rfl
  | cons v rest ih => simp [updateRange, ih]

theorem updateRange_getElem? (start len : ℕ) (st : List Vec) (i j : ℕ) :
    (updateRange start len i st)[j]? =
      (st[j]?).map fun v =>
        if start ≤ i + j ∧ i + j < start + len then SimulateImageProcessing v
        else v := by
  induction st generalizing i j with
  | nil => simp [updateRange]
  | cons v rest ih =>
      cases j with
      | zero => simp [updateRange]
      | succ j =>
          simp only [updateRange, List.getElem?_cons_succ]
          rw [ih (i + 1) j]
          have : i + 1 + j = i + (j + 1) := by omega
          rw [this]

theorem processBatchState_getElem? (start len : ℕ) (st : List Vec) (j : ℕ) :
    (processBatchState start len st)[j]? =
      (st[j]?).map fun v =>
        if start ≤ j ∧ j < start + len then SimulateImageProcessing v else v := by
  have h := updateRange_getElem? start len st 0 j
  simpa [processBatchState] using h

@[simp]
theorem processBatchState_length (start len : ℕ) (st : List Vec) :
    (processBatchState start len st).length = st.length := by
  simp [processBatchState]

@[simp]
theorem applyBatches_length (bs : ℕ) (st : List Vec) (l : List ℕ) :
    (applyBatches bs st l).length = st.length := by
  induction l generalizing st with
  | nil => rfl
  | cons b l ih => simp [applyBatches, List.foldl_cons] at ih ⊢; simp [ih]

/-- Pointwise characterisation of processing a list of batches: the vector
at index `j` is multiplied elementwise by `2 ^ (number of processed batches
covering j)`.  This is what makes "exactly once" provable: the result is a
function of the multiset of processed batch indices only. -/
theorem applyBatches_getElem? (bs : ℕ) (st : List Vec) (l : List ℕ) (j : ℕ) :
    (applyBatches bs st l)[j]? =
      (st[j]?).map fun v => v.map fun e => 2 ^ (l.countP (covers bs j)) * e := by
  induction l generalizing st with
  | nil =>
      simp only [applyBatches, List.foldl_nil, List.countP_nil, pow_zero, one_mul]
      cases st[j]? <;> simp [List.map_id']
  | cons b l ih =>
      have hstep : applyBatches bs st (b :: l) =
          applyBatches bs (processBatchState (b * bs) bs st) l := rfl
      rw [hstep, ih, processBatchState_getElem?]
      rw [List.countP_cons]
      cases hv : st[j]? with
      | none => rfl
      | some v =>
          simp only [Option.map_some', Option.map_some]
          by_cases hc : b * bs ≤ j ∧ j < b * bs + bs
          · have hcov : covers bs j b = true := by simp [covers, hc]
            rw [if_pos hc, hcov, if_pos rfl]
            rw [SimulateImageProcessing, List.map_map]
            exact congrArg some (List.map_congr_left fun a _ => by
              simp only [Function.comp_apply]; ring)
          · have hcov : covers bs j b = false := by simp [covers]; omega
            rw [if_neg hc, hcov]
            simp

/-- Index `j` is covered by exactly one batch in `range (len/bs)` when
`j < (len/bs)*bs`, and by none otherwise. -/
theorem countP_range_covers (bs nb j : ℕ) :
    (List.range nb).countP (covers bs j) = if j < nb * bs then 1 else 0 := by
  induction nb with
  | zero => simp
  | succ nb ih =>
      rw [List.range_succ, List.countP_append, ih]
      by_cases h1 : j < nb * bs
      · have hc : covers bs j nb = false := by
          simp only [covers, decide_eq_false_iff_not]
          intro hcontra
          omega
        have h2 : j < (nb + 1) * bs := by
          have : nb * bs ≤ (nb + 1) * bs := Nat.mul_le_mul_right bs (Nat.le_succ nb)
          omega
        simp [h1, h2, hc, List.countP_cons]
      · by_cases h2 : j < (nb + 1) * bs
        · have hc : covers bs j nb = true := by
            simp only [covers, decide_eq_true_eq]
            constructor
            · omega
            · have : (nb + 1) * bs = nb * bs + bs := by ring
              omega
          simp [h1, h2, hc, List.countP_cons]
        · have hc : covers bs j nb = false := by
            simp only [covers, decide_eq_false_iff_not]
            intro hcontra
            have : (nb + 1) * bs = nb * bs + bs := by ring
            omega
          simp [h1, h2, hc, List.countP_cons]

/-- Pointwise characterisation of one full run: every vector in a batch
(index below `(len/bs)*bs`) is doubled exactly once, every remainder vector
is untouched. -/
theorem RunProcessingTask_getElem? (bs : ℕ) (images : List Vec) (j : ℕ) :
    (RunProcessingTask bs images)[j]? =
      (images[j]?).map fun v =>
        if j < images.length / bs * bs then SimulateImageProcessing v else v := by
  rw [RunProcessingTask, applyBatches_getElem?, countP_range_covers]
  cases images[j]? with
  | none => rfl
  | some v =>
      simp only [Option.map_some', Option.map_some]
      by_cases h : j < images.length / bs * bs
      · rw [if_pos h, if_pos h, SimulateImageProcessing]
        exact congrArg some (List.map_congr_left fun a _ => by ring)
      · rw [if_neg h, if_neg h]
        simp [List.map_id']

/-- Concatenating the `k` contiguous slices of width `bs` recovers the
first `k * bs` items of the list. -/
theorem join_slices {β : Type} (bs k : ℕ) (l : List β) :
    ((List.range k).map fun i => (l.drop (i * bs)).take bs).flatten =
      l.take (k * bs) := by
  induction k with
  | zero => simp
  | succ k ih =>
      rw [List.range_succ, List.map_append, List.flatten_append, ih]
      simp only [List.map_cons, List.map_nil, List.flatten_cons,
        List.flatten_nil, List.append_nil]
      rw [Nat.succ_mul, List.take_add]

/-- Every slice produced by the Batcher has exactly `bs` elements, because
`(i+1) * bs ≤ (len/bs) * bs ≤ len` for every batch index `i < len/bs`. -/
theorem slice_length {β : Type} (bs i : ℕ) (l : List β)
    (hi : i < l.length / bs) : ((l.drop (i * bs)).take bs).length = bs := by
  have h1 : (i + 1) * bs ≤ l.length / bs * bs :=
    Nat.mul_le_mul_right bs hi
  have h2 : l.length / bs * bs ≤ l.length := Nat.div_mul_le_self _ _
  simp only [List.length_take, List.length_drop]
  have : (i + 1) * bs = i * bs + bs := by ring
  omega

theorem totalSum_map_double (st : List Vec) :
    totalSum (st.map SimulateImageProcessing) = 2 * totalSum st := by
  induction st with
  | nil => simp [totalSum]
  | cons v rest ih =>
      simp only [totalSum, List.map_cons, List.sum_cons] at ih ⊢
      rw [ih]
      have hv : (SimulateImageProcessing v).sum = 2 * v.sum := by
        induction v with
        | nil => simp [SimulateImageProcessing]
        | cons e es ihe =>
            simp only [SimulateImageProcessing, List.map_cons,
              List.sum_cons] at ihe ⊢
            rw [ihe]
            ring
      rw [hv]
      ring

/-- The batched region (first `(len/bs) * bs` vectors) of a run's output is
the elementwise doubling of the batched region of the input. -/
theorem RunProcessingTask_take (bs : ℕ) (images : List Vec) :
    (RunProcessingTask bs images).take (images.length / bs * bs) =
      (images.take (images.length / bs * bs)).map SimulateImageProcessing := by
  apply List.ext_getElem?
  intro j
  rw [List.getElem?_take, List.getElem?_map, List.getElem?_take]
  by_cases h : j < images.length / bs * bs
  · rw [if_pos h, if_pos h, RunProcessingTask_getElem?]
    simp only [h, if_true]
  · rw [if_neg h, if_neg h]
    rfl

theorem inv_init (bs W : ℕ) (images : List Vec) (hW : 0 < W) :
    Inv bs W images (initState bs W images) := by
  refine ⟨?_, ?_, ?_, ?_, ?_⟩
  · intro p; simp [initState]
  · intro h; simp [initState] at h
  · simp [initState]
  · intro h; simp [initState] at h; omega
  · simp [initState, applyBatches]

theorem inv_step {Q bs W : ℕ} {images : List Vec} {s s' : SchedState}
    (hinv : Inv bs W images s) (hstep : Step Q bs s s') :
    Inv bs W images s' := by
  obtain ⟨h1, h2, h3, h4, h5⟩ := hinv
  cases hstep with
  | enqueue b rest hp hq =>
      refine ⟨?_, ?_, h3, ?_, h5⟩
      · intro p
        have := h1 p
        rw [hp] at this
        dsimp only
        simp only [List.countP_append, List.countP_cons, List.countP_nil]
          at this ⊢
        omega
      · intro hfl
        dsimp only at hfl ⊢
        rw [h2 hfl] at hp
        simp at hp
      · intro hx
        dsimp only at hx
        exfalso
        rw [h2 (h4 hx).2] at hp
        simp at hp
  | setFlag hp hf =>
      exact ⟨h1, fun _ => hp, h3, fun hx => ⟨(h4 hx).1, rfl⟩, h5⟩
  | dequeue b qrest hq hi =>
      refine ⟨?_, h2, ?_, ?_, h5⟩
      · intro p
        have := h1 p
        rw [hq] at this
        dsimp only
        simp only [List.countP_cons] at this ⊢
        omega
      · dsimp only
        simp only [List.length_cons]
        omega
      · intro hx
        dsimp only at hx
        exfalso
        omega
  | finish b brest hb =>
      have hlen := hb.length_eq
      simp only [List.length_cons] at hlen
      refine ⟨?_, h2, ?_, ?_, ?_⟩
      · intro p
        have := h1 p
        rw [hb.countP_eq p] at this
        dsimp only
        simp only [List.countP_cons] at this ⊢
        omega
      · dsimp only
        omega
      · intro hx
        dsimp only at hx
        exfalso
        omega
      · dsimp only
        rw [List.reverse_cons]
        simp only [applyBatches, List.foldl_append, List.foldl_cons,
          List.foldl_nil]
        simp only [applyBatches] at h5
        rw [h5]
  | exit hi hf hq =>
      refine ⟨h1, h2, ?_, ?_, h5⟩
      · dsimp only
        omega
      · intro _
        exact ⟨hq, hf⟩

theorem inv_reaches {Q bs W : ℕ} {images : List Vec} {s0 s : SchedState}
    (h0 : Inv bs W images s0) (hr : Reaches Q bs s0 s) :
    Inv bs W images s := by
  induction hr with
  | refl => exact h0
  | tail _ hstep ih => exact inv_step ih hstep

/-- In a terminal state (every worker has exited), the producer is done,
the queue is drained, no worker holds a batch, and the dataset equals the
canonical exactly-once result. -/
theorem inv_terminal {bs W : ℕ} {images : List Vec} {s : SchedState}
    (hinv : Inv bs W images s) (hx : s.exited = W) :
    s.pending = [] ∧ s.queue = [] ∧ s.busy = [] ∧
      s.data = RunProcessingTask bs images := by
  obtain ⟨h1, h2, h3, h4, h5⟩ := hinv
  obtain ⟨hq, hfl⟩ := h4 hx
  have hbusy : s.busy = [] := by
    have : s.busy.length = 0 := by omega
    exact List.length_eq_zero.mp this
  have hpend : s.pending = [] := h2 hfl
  refine ⟨hpend, hq, hbusy, ?_⟩
  have hcount : ∀ p : ℕ → Bool,
      s.done.countP p = (List.range (images.length / bs)).countP p := by
    intro p
    have := h1 p
    rw [hbusy, hq, hpend] at this
    simpa using this
  rw [h5, RunProcessingTask]
  apply List.ext_getElem?
  intro j
  rw [applyBatches_getElem?, applyBatches_getElem?]
  rw [(s.done.reverse_perm).countP_eq, hcount]

theorem javaParseBatch_length (data : List ℕ) :
    (javaParseBatch data).length = numImagesPerBatch := by
  simp [javaParseBatch]

attribute [irreducible] javaParseBatch

/-- The Go record loop panics on any file shorter than the records it
still has to read: the first record whose label index or slice bound
falls outside the data is an out-of-range access. -/
theorem parseImages_panic (data : List ℕ) (j fuel : ℕ) (hfuel : 0 < fuel)
    (hlen : data.length < (j + fuel) * (imageSize + 1)) :
    parseImages data j fuel = .panic := by
  induction fuel generalizing j with
  | zero => omega
  | succ fuel ih =>
      have hK : imageSize + 1 = 3073 := by norm_num [imageSize]
      rw [parseImages]
      by_cases h1 : j * (imageSize + 1) < data.length
      · rw [if_pos h1]
        by_cases h2 : (j + 1) * (imageSize + 1) ≤ data.length
        · rw [if_pos h2]
          have hfuel' : 0 < fuel := by
            rw [hK] at hlen h2
            rcases Nat.eq_zero_or_pos fuel with h | h
            · subst h
              exfalso
              omega
            · exact h
          rw [ih (j + 1) hfuel' (by rw [hK] at hlen ⊢; omega)]
        · rw [if_neg h2]
      · rw [if_neg h1]

/-- The Go loader returns an `error` (not a panic) when the first batch
file is missing. -/
theorem loadBatchFiles_missing (fs : String → Option (List ℕ))
    (dataDir : String) (i : ℕ) (rest : List ℕ)
    (h : fs (dataBatchPath dataDir i) = none) :
    loadBatchFiles fs dataDir (i :: rest) = .fileError := by
  rw [loadBatchFiles, h]

/-- The Go loader panics when the first batch file exists but holds fewer
bytes than its declared `numImagesPerBatch` records require. -/
theorem loadBatchFiles_truncated (fs : String → Option (List ℕ))
    (dataDir : String) (i : ℕ) (rest : List ℕ) (data : List ℕ)
    (h : fs (dataBatchPath dataDir i) = some data)
    (hlen : data.length < numImagesPerBatch * (imageSize + 1)) :
    loadBatchFiles fs dataDir (i :: rest) = .panic := by
  have hp : parseImages data 0 numImagesPerBatch = .panic :=
    parseImages_panic data 0 numImagesPerBatch
      (by norm_num [numImagesPerBatch]) (by simpa using hlen)
  rw [loadBatchFiles, h]
  simp [hp]

/-- Every successful Java load yields one single-image batch per parsed
record: `10000` per file, each of length 1. -/
theorem loadJavaFiles_ok (fs : String → Option (List ℕ)) (dataDir : String)
    (l : List ℕ) (res : List (List Vec))
    (h : loadJavaFiles fs dataDir l = .ok res) :
    res.length = l.length * numImagesPerBatch ∧
      ∀ batch ∈ res, batch.length = 1 := by
  induction l generalizing res with
  | nil =>
      rw [loadJavaFiles] at h
      cases h
      simp
  | cons i rest ih =>
      rw [loadJavaFiles] at h
      cases hfs : fs (dataBatchPath dataDir i) with
      | none => rw [hfs] at h; cases h
      | some data =>
          rw [hfs] at h
          dsimp only at h
          by_cases hlen : data.length < javaExpectedSize
          · rw [if_pos hlen] at h; cases h
          · rw [if_neg hlen] at h
            cases hrest : loadJavaFiles fs dataDir rest with
            | ok more =>
                rw [hrest] at h
                cases h
                obtain ⟨ihlen, ihmem⟩ := ih more hrest
                constructor
                · simp [javaParseBatch_length, ihlen, List.length_cons]
                  ring
                · intro batch hbatch
                  rcases List.mem_append.mp hbatch with hb | hb
                  · rcases List.mem_map.mp hb with ⟨img, _, rfl⟩
                    rfl
                  · exact ihmem batch hb
            | error e => rw [hrest] at h; cases h

/-!
## Remaining support lemmas
-/

theorem RunProcessingTask_length (bs : ℕ) (images : List Vec) :
    (RunProcessingTask bs images).length = images.length := by
  simp [RunProcessingTask]

theorem RunProcessingTask_iterate_length (bs r : ℕ) (images : List Vec) :
    ((RunProcessingTask bs)^[r] images).length = images.length := by
  induction r with
  | zero => rfl
  | succ r ih =>
      rw [Function.iterate_succ_apply', RunProcessingTask_length, ih]

/-- Processing the batches in any schedule order (any permutation of the
batch indices) produces the same dataset as the canonical in-order run:
the Strategy B goroutines may finish in any order. -/
theorem applyBatches_perm (bs : ℕ) (images : List Vec) (ord : List ℕ)
    (h : ord.Perm (List.range (images.length / bs))) :
    applyBatches bs images ord = RunProcessingTask bs images := by
  rw [RunProcessingTask]
  apply List.ext_getElem?
  intro j
  rw [applyBatches_getElem?, applyBatches_getElem?,
    h.countP_eq (covers bs j)]

/-- The Java loader only succeeds when every listed batch file is present
and at least the expected size. -/
theorem loadJavaFiles_success_requires (fs : String → Option (List ℕ))
    (dataDir : String) (l : List ℕ) (res : List (List Vec))
    (h : loadJavaFiles fs dataDir l = .ok res) :
    ∀ k ∈ l, ∃ d, fs (dataBatchPath dataDir k) = some d ∧
      javaExpectedSize ≤ d.length := by
  induction l generalizing res with
  | nil => intro k hk; cases hk
  | cons i rest ih =>
      intro k hk
      rw [loadJavaFiles] at h
      cases hfs : fs (dataBatchPath dataDir i) with
      | none => rw [hfs] at h; cases h
      | some data =>
          rw [hfs] at h
          dsimp only at h
          by_cases hlen : data.length < javaExpectedSize
          · rw [if_pos hlen] at h; cases h
          · rw [if_neg hlen] at h
            cases hrest : loadJavaFiles fs dataDir rest with
            | ok more =>
                rcases List.mem_cons.mp hk with rfl | hk'
                · exact ⟨data, hfs, le_of_not_lt hlen⟩
                · exact ih more hrest k hk'
            | error e => rw [hrest] at h; cases h

/-- On the all-files-present file system the Java loader succeeds and
yields one single-image batch per record: `10000` per listed file. -/
theorem loadJavaFiles_full (l : List ℕ) :
    (loadJavaFiles fsFull dirEmpty l).map List.length =
      .ok (l.length * numImagesPerBatch) := by
  induction l with
  | nil => simp [loadJavaFiles, Except.map]
  | cons i rest ih =>
      rw [loadJavaFiles]
      show (match fsFull (dataBatchPath dirEmpty i) with
        | none => Except.error ()
        | some data =>
            if data.length < javaExpectedSize then Except.error ()
            else
              match loadJavaFiles fsFull dirEmpty rest with
              | Except.ok more =>
                  Except.ok ((javaParseBatch data).map (fun img => [img]) ++ more)
              | Except.error e => Except.error e).map List.length = _
      rw [show fsFull (dataBatchPath dirEmpty i) =
        some (List.replicate javaExpectedSize 0) from rfl]
      dsimp only
      rw [if_neg (by simp)]
      cases hrest : loadJavaFiles fsFull dirEmpty rest with
      | ok more =>
          rw [hrest] at ih
          have hmore : more.length = rest.length * numImagesPerBatch := by
            simpa [Except.map] using ih
          have hsum : (javaParseBatch (List.replicate javaExpectedSize 0)).length +
              more.length = (rest.length + 1) * numImagesPerBatch := by
            rw [hmore, javaParseBatch_length]
            ring
          simp [Except.map, hsum]
      | error e => rw [hrest] at ih; simp [Except.map] at ih

/-!
## Claim theorems
-/

/-- Claim C1: for every run of either scheduling strategy, after the
scheduler's run returns, every Vector in every input Batch has been
transformed exactly once — none doubled twice, none skipped, no batch left
partially processed — so the checksum over the batched region doubles.
Part 1: every reachable terminal state (all workers exited) of the
Strategy A bounded-queue pool holds the canonical exactly-once dataset.
Part 2: every Strategy B fan-out schedule (any completion order of the
per-batch goroutines) also yields it.  Part 3: in that dataset, every
batched vector is the elementwise double of its input — applied exactly
once.  Part 4: the checksum: the output batched region sums to `2 ×` the
input batched region. -/
theorem C1_scheduler_exactly_once (Q W bs : ℕ) (images : List Vec)
    (s : SchedState) (hW : 0 < W)
    (hr : Reaches Q bs (initState bs W images) s) (hx : s.exited = W) :
    s.data = RunProcessingTask bs images
    ∧ (∀ ord : List ℕ, ord.Perm (List.range (images.length / bs)) →
        applyBatches bs images ord = RunProcessingTask bs images)
    ∧ (∀ j, j < images.length / bs * bs →
        (RunProcessingTask bs images)[j]? =
          (images[j]?).map SimulateImageProcessing)
    ∧ totalSum ((RunProcessingTask bs images).take (images.length / bs * bs)) =
        2 * totalSum (images.take (images.length / bs * bs)) := by
  refine ⟨?_, ?_, ?_, ?_⟩
  · exact (inv_terminal (inv_reaches (inv_init bs W images hW) hr) hx).2.2.2
  · exact fun ord hord => applyBatches_perm bs images ord hord
  · intro j hj
    rw [RunProcessingTask_getElem?]
    cases images[j]? with
    | none => rfl
    | some v => simp [hj]
  · rw [RunProcessingTask_take, totalSum_map_double]

/-- Witness for C1: the one-batch instance `Q = 1`, `W = 1`, `bs = 1` on
the dataset `[[1]]`, driven through the full execution enqueue, setFlag,
dequeue, finish, exit, ends in `sFinalC1` holding the canonical run
result. -/
theorem C1_scheduler_exactly_once_witness :
    sFinalC1.data = RunProcessingTask 1 [[(1 : ℚ)]] := by
  have hr : Reaches 1 1 (initState 1 1 [[(1 : ℚ)]]) sFinalC1 := by
    apply Relation.ReflTransGen.head
      (Step.enqueue _ 0 [] (by decide) (by decide))
    apply Relation.ReflTransGen.head (Step.setFlag _ (by decide) (by decide))
    apply Relation.ReflTransGen.head
      (Step.dequeue _ 0 [] (by decide) (by decide))
    apply Relation.ReflTransGen.head (Step.finish _ 0 [] (by decide))
    apply Relation.ReflTransGen.head
      (Step.exit _ (by decide) (by decide) (by decide))
    exact Relation.ReflTransGen.refl
  exact (C1_scheduler_exactly_once 1 1 1 [[(1 : ℚ)]] sFinalC1 (by decide)
    hr (by decide)).1

/-- Claim C2, counterexample: the Java cifar pipeline's batch list (built
by `loadCifar10Dataset`, which wraps every parsed image as its own
one-image batch at line 116) has `5 × 10000 = 50000` entries for its
`N = 50000` dataset, whereas the claimed `floor(N / batchSize)` with the
configured `BATCH_SIZE = 500` is `100`. -/
theorem C2_batcher_counterexample :
    (loadCifar10Dataset fsFull dirEmpty).map List.length = .ok 50000
    ∧ (50000 : ℕ) / 500 = 100
    ∧ (50000 : ℕ) ≠ 50000 / 500 := by
  refine ⟨?_, by norm_num, by norm_num⟩
  have h := loadJavaFiles_full [1, 2, 3, 4, 5]
  rw [loadCifar10Dataset]
  simpa [numImagesPerBatch] using h

/-- Claim C2, amended: the Go Batcher satisfies the contract — for every
dataset and every positive `batchSize` it yields `floor(N / batchSize)`
batches of exactly `batchSize` contiguous (Vector, Label) pairs in dataset
order, the `N mod batchSize` remainder items appearing in no batch and the
truncation producing no error; the Java cifar pipeline instead wraps each
of its `5 × 10000` parsed vectors as its own single-image batch,
independent of the configured `BATCH_SIZE`. -/
theorem C2_batcher_amended {α : Type} (bs : ℕ) (images : List Vec)
    (labels : List α) (_hbs : 0 < bs) (hlen : labels.length = images.length) :
    (makeBatches bs images labels).length = images.length / bs
    ∧ (∀ batch ∈ makeBatches bs images labels,
        batch.Images.length = bs ∧ batch.Labels.length = bs)
    ∧ ((makeBatches bs images labels).map ImageBatch.Images).flatten =
        images.take (images.length / bs * bs)
    ∧ ((makeBatches bs images labels).map ImageBatch.Labels).flatten =
        labels.take (images.length / bs * bs)
    ∧ (∀ fs dataDir res, loadCifar10Dataset fs dataDir = .ok res →
        res.length = 5 * numImagesPerBatch ∧ ∀ b ∈ res, b.length = 1) := by
  refine ⟨?_, ?_, ?_, ?_, ?_⟩
  · simp [makeBatches]
  · intro batch hbatch
    rcases List.mem_map.mp hbatch with ⟨i, hi, rfl⟩
    rw [List.mem_range] at hi
    constructor
    · exact slice_length bs i images hi
    · exact slice_length bs i labels (by rw [hlen]; exact hi)
  · rw [makeBatches, List.map_map]
    exact join_slices bs (images.length / bs) images
  · rw [makeBatches, List.map_map]
    exact join_slices bs (images.length / bs) labels
  · intro fs dataDir res hres
    obtain ⟨hl, hmem⟩ := loadJavaFiles_ok fs dataDir [1, 2, 3, 4, 5] res hres
    exact ⟨by simpa using hl, hmem⟩

/-- Witness for C2 (amended): with `bs = 2` on a 5-vector dataset the Go
Batcher yields `floor(5/2) = 2` batches. -/
theorem C2_batcher_amended_witness :
    (makeBatches 2 [[(1 : ℚ)], [2], [3], [4], [5]]
      [(10 : ℤ), 20, 30, 40, 50]).length = 2 := by
  have h := C2_batcher_amended 2 [[(1 : ℚ)], [2], [3], [4], [5]]
    [(10 : ℤ), 20, 30, 40, 50] (by decide) (by decide)
  simpa using h.1

/-- Claim C3, counterexample: the Java tinyimagenet transform clamps.  A
channel intensity of 200 maps to `min(400, 255) = 255 ≠ 2 × 200`, and
applying the transform twice to intensity 100 gives `255 ≠ 4 × 100`; the
clamping is visible through the full pixel transform as well
(`processRGB` on the grey pixel (200, 200, 200)). -/
theorem C3_transform_counterexample :
    processChannel 200 = 255
    ∧ processChannel 200 ≠ 2 * 200
    ∧ processChannel (processChannel 100) = 255
    ∧ processChannel (processChannel 100) ≠ 4 * 100
    ∧ processRGB 13158600 / 65536 % 256 = 255 := by
  refine ⟨rfl, by decide, rfl, by decide, ?_⟩
  norm_num [processRGB, processChannel]

/-- Claim C3, amended: the Go and Java cifar float transforms double every
element exactly (twice yields exactly `4 × e`, no clamping), but the Java
tinyimagenet per-channel transform is `min(2e, 255)`: it equals `2e` only
for channels `e ≤ 127` and saturates to 255 for `e ≥ 128`. -/
theorem C3_transform_amended (v : Vec) (c : ℕ) (hc : c ≤ 255) :
    SimulateImageProcessing (SimulateImageProcessing v) =
      v.map (fun e => 4 * e)
    ∧ (∀ i : ℕ, (SimulateImageProcessing v)[i]? = (v[i]?).map fun e => e * 2)
    ∧ (c ≤ 127 → processChannel c = 2 * c)
    ∧ (128 ≤ c → processChannel c = 255) := by
  refine ⟨?_, ?_, ?_, ?_⟩
  · rw [SimulateImageProcessing, SimulateImageProcessing, List.map_map]
    exact List.map_congr_left fun a _ => by
      simp only [Function.comp_apply]; ring
  · intro i
    rw [SimulateImageProcessing, List.getElem?_map]
  · intro h
    rw [processChannel]
    omega
  · intro h
    rw [processChannel]
    omega

/-- Witness for C3 (amended) at the vector `[3]` and channel 100. -/
theorem C3_transform_amended_witness :
    SimulateImageProcessing (SimulateImageProcessing [(3 : ℚ)]) =
      List.map (fun e => 4 * e) [(3 : ℚ)]
    ∧ processChannel 100 = 2 * 100 :=
  ⟨(C3_transform_amended [(3 : ℚ)] 100 (by decide)).1,
   (C3_transform_amended [(3 : ℚ)] 100 (by decide)).2.2.1 (by decide)⟩

/-- Claim C4: `concurrencyOverhead ≥ executionTime` for every recorded
run.  The four clock readings are taken in the program order
`t0 ≤ t1 ≤ t2 ≤ t3` (the clock sources — Go's monotonic `time.Now` and
Java's `System.nanoTime` — are non-decreasing), `executionTime = t2 - t1`
and `concurrencyOverhead = t3 - t0`, so the overhead window contains the
execution window. -/
theorem C4_overhead_ge_execution (t0 t1 t2 t3 : ℤ)
    (h01 : t0 ≤ t1) (h23 : t2 ≤ t3) :
    (RunProcessingTaskTimings t0 t1 t2 t3).1 ≤
      (RunProcessingTaskTimings t0 t1 t2 t3).2 := by
  simp only [RunProcessingTaskTimings]
  omega

/-- Witness for C4 at the readings 0, 1, 5, 6. -/
theorem C4_overhead_ge_execution_witness :
    (RunProcessingTaskTimings 0 1 5 6).1 ≤
      (RunProcessingTaskTimings 0 1 5 6).2 :=
  C4_overhead_ge_execution 0 1 5 6 (by decide) (by decide)

/-- Claim C5, counterexample: when the consumer pool fails to drain within
the bounded 10-minute wait, `processBatches` does not surface any failure:
the boolean returned by `awaitTermination` is discarded and the method
returns normally, so the caller receives no `terminationTimeout`. -/
theorem C5_timeout_counterexample :
    processBatchesResult AwaitOutcome.timedOut ≠
      some SchedulerFailure.terminationTimeout := by
  decide

/-- Claim C5, amended: the bounded wait exists and `awaitTermination`
does report the timeout (it returns `false`), but `processBatches`
discards that result — for every await outcome, including the timeout, it
returns normally with no failure surfaced to the caller. -/
theorem C5_timeout_swallowed_amended (o : AwaitOutcome) :
    awaitTermination AwaitOutcome.timedOut = Except.ok false
    ∧ processBatchesResult o = none := by
  refine ⟨rfl, ?_⟩
  cases o <;> rfl

/-- Claim C6, counterexample: the Go loader on a present-but-truncated
batch file (5 bytes instead of the declared `10000 × 3073`) performs an
out-of-range access — a runtime panic — instead of returning a
`LoadError`. -/
theorem C6_loader_counterexample :
    fsTrunc (dataBatchPath dirEmpty 1) = some [0, 0, 0, 0, 0]
    ∧ LoadCIFAR10 fsTrunc dirEmpty = GoResult.panic
    ∧ LoadCIFAR10 fsTrunc dirEmpty ≠ GoResult.fileError := by
  have h1 : fsTrunc (dataBatchPath dirEmpty 1) = some [0, 0, 0, 0, 0] := by
    rw [fsTrunc, if_pos rfl]
  have h2 : LoadCIFAR10 fsTrunc dirEmpty = GoResult.panic :=
    loadBatchFiles_truncated fsTrunc dirEmpty 1 [2, 3, 4, 5] [0, 0, 0, 0, 0]
      h1 (by norm_num [numImagesPerBatch, imageSize])
  exact ⟨h1, h2, by rw [h2]; exact fun h => by cases h⟩

/-- Claim C6, amended: on a missing file the Go loader does return an
error, but on a present-yet-truncated/undersized file it panics
(out-of-bounds access) instead of returning a `LoadError`; the Java loader
only succeeds when every batch file is present with at least the expected
size, so a missing, truncated or undersized file makes it fail with an
error. -/
theorem C6_loader_amended (fs : String → Option (List ℕ)) (dataDir : String)
    (rest : List ℕ) (data : List ℕ) (i : ℕ) :
    (fs (dataBatchPath dataDir i) = none →
      loadBatchFiles fs dataDir (i :: rest) = .fileError)
    ∧ (fs (dataBatchPath dataDir i) = some data →
      data.length < numImagesPerBatch * (imageSize + 1) →
      loadBatchFiles fs dataDir (i :: rest) = .panic)
    ∧ (∀ l res, loadJavaFiles fs dataDir l = .ok res →
      ∀ k ∈ l, ∃ d, fs (dataBatchPath dataDir k) = some d ∧
        javaExpectedSize ≤ d.length) := by
  refine ⟨?_, ?_, ?_⟩
  · exact loadBatchFiles_missing fs dataDir i rest
  · exact loadBatchFiles_truncated fs dataDir i rest data
  · exact loadJavaFiles_success_requires fs dataDir

/-- Witness for C6 (amended): the empty file system makes the Go loader
return an error; the 5-byte first file makes it panic. -/
theorem C6_loader_amended_witness :
    loadBatchFiles fsNone dirEmpty (1 :: [2, 3, 4, 5]) = .fileError
    ∧ loadBatchFiles fsTrunc dirEmpty (1 :: [2, 3, 4, 5]) = .panic :=
  ⟨(C6_loader_amended fsNone dirEmpty [2, 3, 4, 5] [] 1).1 rfl,
   (C6_loader_amended fsTrunc dirEmpty [2, 3, 4, 5] [0, 0, 0, 0, 0] 1).2.1
     (by rw [fsTrunc, if_pos rfl])
     (by norm_num [numImagesPerBatch, imageSize])⟩

/-- Claim C7, counterexample: the Go implementations compute the memory
delta on `uint64`, so a shrinking heap (`after < before`) wraps to a huge
unsigned value instead of recording a negative signed difference: for
`before = 1000`, `after = 999` the recorded delta is `2^64 - 1`, not
`-1`. -/
theorem C7_memory_delta_counterexample :
    goMemoryUsage 1000 999 = 2 ^ 64 - 1
    ∧ ((goMemoryUsage 1000 999 : ℤ) ≠ (999 : ℤ) - 1000) := by
  constructor
  · norm_num [goMemoryUsage]
  · norm_num [goMemoryUsage]

/-- Claim C7, amended: the Java harnesses record the signed difference
`after - before` (negative when the heap shrank, no clamping), while the
Go harnesses record it modulo `2^64`: equal to `after - before` when the
heap grew, but wrapped to the large value `2^64 - (before - after)` when
it shrank. -/
theorem C7_memory_delta_amended (b a : ℕ) (bi ai : ℤ)
    (hb : b < 2 ^ 64) (ha : a < 2 ^ 64)
    (hlo : -2 ^ 63 ≤ ai - bi) (hhi : ai - bi < 2 ^ 63) :
    (b ≤ a → goMemoryUsage b a = a - b)
    ∧ (a < b → goMemoryUsage b a = 2 ^ 64 - (b - a))
    ∧ javaMemoryUsage bi ai = ai - bi := by
  have h64 : (2 : ℕ) ^ 64 = 18446744073709551616 := by norm_num
  have h64i : (2 : ℤ) ^ 64 = 18446744073709551616 := by norm_num
  have h63i : (2 : ℤ) ^ 63 = 9223372036854775808 := by norm_num
  refine ⟨?_, ?_, ?_⟩
  · intro hba
    rw [goMemoryUsage]
    rw [h64] at hb ha ⊢
    omega
  · intro hab
    rw [goMemoryUsage]
    rw [h64] at hb ha ⊢
    omega
  · rw [javaMemoryUsage]
    rw [h63i] at hlo hhi
    rw [h64i, h63i]
    omega

/-- Witness for C7 (amended) at `before = 1000`, `after = 999`: Go wraps
to `2^64 - 1`, Java records `-1`. -/
theorem C7_memory_delta_amended_witness :
    goMemoryUsage 1000 999 = 2 ^ 64 - (1000 - 999)
    ∧ javaMemoryUsage 1000 999 = 999 - 1000 :=
  ⟨(C7_memory_delta_amended 1000 999 1000 999 (by norm_num) (by norm_num)
      (by norm_num) (by norm_num)).2.1 (by norm_num),
   (C7_memory_delta_amended 1000 999 1000 999 (by norm_num) (by norm_num)
      (by norm_num) (by norm_num)).2.2⟩

/-- Claim C8: the producer sets the shared "producing finished" flag only
after the last batch has been successfully enqueued: in every reachable
state of the Strategy A scheduler, a set flag implies an empty `pending`
list (nothing left to enqueue). -/
theorem C8_producer_flag (Q W bs : ℕ) (images : List Vec) (s : SchedState)
    (hW : 0 < W) (hr : Reaches Q bs (initState bs W images) s)
    (hf : s.flag = true) : s.pending = [] :=
  (inv_reaches (inv_init bs W images hW) hr).2.1 hf

/-- Witness for C8: the state reached after enqueue then setFlag on the
one-batch instance has its flag set and nothing pending. -/
theorem C8_producer_flag_witness : sFlagC8.pending = [] := by
  have hr : Reaches 1 1 (initState 1 1 [[(1 : ℚ)]]) sFlagC8 := by
    apply Relation.ReflTransGen.head
      (Step.enqueue _ 0 [] (by decide) (by decide))
    apply Relation.ReflTransGen.head (Step.setFlag _ (by decide) (by decide))
    exact Relation.ReflTransGen.refl
  exact C8_producer_flag 1 1 1 [[(1 : ℚ)]] sFlagC8 (by decide) hr (by decide)

/-- Claim C9: for every dataset whose size is not a multiple of
`batchSize`, the trailing `N mod batchSize` remainder vectors appear in no
batch and are never mutated by any number of runs, while the batched
prefix behaves as usual. -/
theorem C9_remainder_untouched (bs r idx : ℕ) (images : List Vec)
    (labels : List ℤ) (hidx : images.length / bs * bs ≤ idx) :
    ((RunProcessingTask bs)^[r] images)[idx]? = images[idx]?
    ∧ ((makeBatches bs images labels).map ImageBatch.Images).flatten =
        images.take (images.length / bs * bs) := by
  constructor
  · induction r with
    | zero => rfl
    | succ r ih =>
        rw [Function.iterate_succ_apply', RunProcessingTask_getElem?,
          RunProcessingTask_iterate_length, ih]
        have h : ¬ idx < images.length / bs * bs := by omega
        cases images[idx]? with
        | none => rfl
        | some v => simp [h]
  · rw [makeBatches, List.map_map]
    exact join_slices bs (images.length / bs) images

/-- Witness for C9: dataset of 5 vectors, `bs = 2` (remainder 1), two
runs: the last vector is untouched. -/
theorem C9_remainder_untouched_witness :
    ((RunProcessingTask 2)^[2] [[(1 : ℚ)], [2], [3], [4], [5]])[4]? =
      [[(1 : ℚ)], [2], [3], [4], [5]][4]? :=
  (C9_remainder_untouched 2 2 4 [[(1 : ℚ)], [2], [3], [4], [5]]
    [10, 20, 30, 40, 50] (by decide)).1

/-- Claim C10: because batches alias the dataset and the transform doubles
in place with no reset between runs, `r` sequential runs compound: every
vector in the batched region equals `2^r` times its originally loaded
value (so all-ones becomes all-twos only after the first run). -/
theorem C10_runs_compound (bs r idx : ℕ) (images : List Vec)
    (hidx : idx < images.length / bs * bs) :
    ((RunProcessingTask bs)^[r] images)[idx]? =
      (images[idx]?).map (List.map fun e => 2 ^ r * e) := by
  induction r with
  | zero =>
      simp only [Function.iterate_zero, id_eq, pow_zero]
      cases images[idx]? with
      | none => rfl
      | some v => simp [List.map_id']
  | succ r ih =>
      rw [Function.iterate_succ_apply', RunProcessingTask_getElem?,
        RunProcessingTask_iterate_length, ih]
      have h : idx < images.length / bs * bs := hidx
      cases images[idx]? with
      | none => rfl
      | some v =>
          simp only [Option.map_some', h, if_true, SimulateImageProcessing,
            List.map_map]
          exact congrArg some (List.map_congr_left fun a _ => by
            simp only [Function.comp_apply]
            rw [pow_succ]
            ring)

/-- Witness for C10: two runs with `bs = 1` on the all-ones dataset
`[[1, 1]]` give `[[4, 4]] = 2^2 × [[1, 1]]`, not all twos. -/
theorem C10_runs_compound_witness :
    ((RunProcessingTask 1)^[2] [[(1 : ℚ), 1]])[0]? =
      ([[(1 : ℚ), 1]][0]?).map (List.map fun e => 2 ^ 2 * e) :=
  C10_runs_compound 1 2 0 [[(1 : ℚ), 1]] (by decide)

end JavaGoBench
